import Mathlib

/-!
Verification of the zfs-win block-resolution engine (`BlockReader.cpp`).

This file gives a shallow embedding of `src/zfs-win/BlockReader.cpp`
(`BlockReader::Insert/Read/Verify/Decompress`, `BlockStream::ReadNext/ReadToEnd`,
`BlockFile::BlockFile/Read`) and proves/refutes the frozen claims about it.

Modelling conventions:
* Machine integers are `Nat`; the one place where 64-bit overflow matters
  (`offset + size` in `BlockFile::Read`) uses an explicit `% 2^64`.
* Byte buffers (`std::vector<uint8_t>`) are `List Nat`.
* The external collaborators that are not part of this translation unit
  (`VirtualDevice`, `Pool`, the checksum and decompression primitives, and the
  `blkptr_t` record layout from the missing header) are modelled from the spec
  as explicit parameters (`Prims`) or small structures; each such definition
  carries a `Modelled from the spec:` doc comment.
* The debug-only `ASSERT` macro is a no-op at run time (release semantics), so
  it does not appear in the model; where an `ASSERT` is the only guard, the
  model faithfully continues past it.
-/

namespace ZFS

/-- Modelled from the spec: the 256-bit checksum value (`cksum_t` in the missing
header), four 64-bit words. -/
structure Cksum where
  w0 : Nat
  w1 : Nat
  w2 : Nat
  w3 : Nat
deriving DecidableEq, Repr

/-- Modelled from the spec: one physical copy locus (`dva_t` in the missing
header): device id, sector offset, gang flag. -/
structure dva_t where
  vdev : Nat
  offset : Nat
  gang : Bool
deriving DecidableEq, Repr

/-- Modelled from the spec: the on-disk block descriptor (`blkptr_t` in the
missing header): three redundant addresses, physical/logical sizes stored as
sectors minus one, object type byte (0 = unused sentinel), indirection level,
checksum and compression algorithm bytes, checksum value. -/
structure blkptr_t where
  dva0 : dva_t
  dva1 : dva_t
  dva2 : dva_t
  psize : Nat
  lsize : Nat
  type : Nat
  lvl : Nat
  cksum_type : Nat
  comp_type : Nat
  cksum : Cksum
deriving DecidableEq, Repr

instance : Inhabited dva_t := ⟨⟨0, 0, false⟩⟩
instance : Inhabited Cksum := ⟨⟨0, 0, 0, 0⟩⟩
instance : Inhabited blkptr_t := ⟨⟨default, default, default, 0, 0, 0, 0, 0, 0, default⟩⟩

/-- Modelled from the spec: the unused-slot sentinel object type (`DMU_OT_NONE`,
"0 = unused sentinel"). -/
def DMU_OT_NONE : Nat := 0

/-- Modelled from the spec: checksum algorithm codes from the missing header
(standard ZFS `zio_checksum` enumeration). -/
def ZIO_CHECKSUM_INHERIT : Nat := 0
def ZIO_CHECKSUM_ON : Nat := 1
def ZIO_CHECKSUM_OFF : Nat := 2
def ZIO_CHECKSUM_LABEL : Nat := 3
def ZIO_CHECKSUM_GANG_HEADER : Nat := 4
def ZIO_CHECKSUM_ZILOG : Nat := 5
def ZIO_CHECKSUM_FLETCHER_2 : Nat := 6
def ZIO_CHECKSUM_FLETCHER_4 : Nat := 7
def ZIO_CHECKSUM_SHA256 : Nat := 8
def ZIO_CHECKSUM_ZILOG2 : Nat := 9

/-- Modelled from the spec: compression algorithm codes from the missing header
(standard ZFS `zio_compress` enumeration). -/
def ZIO_COMPRESS_INHERIT : Nat := 0
def ZIO_COMPRESS_ON : Nat := 1
def ZIO_COMPRESS_OFF : Nat := 2
def ZIO_COMPRESS_LZJB : Nat := 3
def ZIO_COMPRESS_EMPTY : Nat := 4
def ZIO_COMPRESS_GZIP_1 : Nat := 5
def ZIO_COMPRESS_GZIP_2 : Nat := 6
def ZIO_COMPRESS_GZIP_3 : Nat := 7
def ZIO_COMPRESS_GZIP_4 : Nat := 8
def ZIO_COMPRESS_GZIP_5 : Nat := 9
def ZIO_COMPRESS_GZIP_6 : Nat := 10
def ZIO_COMPRESS_GZIP_7 : Nat := 11
def ZIO_COMPRESS_GZIP_8 : Nat := 12
def ZIO_COMPRESS_GZIP_9 : Nat := 13
def ZIO_COMPRESS_ZLE : Nat := 14

/-- Modelled from the spec: a pool member device ("serves byte-range reads from
one backing store, addressed by integer id").  Its contents are a total byte
function; the source ignores `VirtualDevice::Read`'s return value, so a read
always yields bytes here. -/
structure VirtualDevice where
  id : Nat
  data : Nat → Nat

/-- Modelled from the spec: `VirtualDevice::Read(buffer, length, byteOffset)`
fills the buffer with `length` bytes starting at `byteOffset`. -/
def VirtualDevice.Read (v : VirtualDevice) (length off : Nat) : List Nat :=
  (List.range length).map (fun i => v.data (off + i))

/-- Modelled from the spec: the pool's stable device collection (`m_vdevs`). -/
structure Pool where
  m_vdevs : List VirtualDevice

/-- Modelled from the spec: the external pure primitives consumed by this core —
the checksum functions (`fletcher_2_native`, `fletcher_4_native`, `sha256` from
`Hash.cpp`), the decompression codecs (`lzjb_decompress`, `gzip_decompress`,
`zle_decompress` from `Compress.cpp`), and the byte layout of one `blkptr_t`
record (from the missing header), all deterministic and side-effect-free.
The codec functions map (source bytes, declared output size) to the bytes the
codec writes. -/
structure Prims where
  fletcher2 : List Nat → Cksum
  fletcher4 : List Nat → Cksum
  sha256 : List Nat → Cksum
  lzjb : List Nat → Nat → List Nat
  gzip : List Nat → Nat → List Nat
  zle : List Nat → Nat → List Nat
  parseBlkptr : List Nat → blkptr_t

/-- Embedding of `BlockReader::Verify` (BlockReader.cpp:113-145): dispatch on the checksum
algorithm byte and compare against the stored checksum.  `OFF` always passes;
the `default:` arm is `ASSERT(0); return false`. -/
def Verify (p : Prims) (buff : List Nat) (cksum_type : Nat) (cksum : Cksum) : Bool :=
  if cksum_type = ZIO_CHECKSUM_OFF then
    true
  else if cksum_type = ZIO_CHECKSUM_ON ∨ cksum_type = ZIO_CHECKSUM_ZILOG ∨
          cksum_type = ZIO_CHECKSUM_FLETCHER_2 then
    p.fletcher2 buff == cksum
  else if cksum_type = ZIO_CHECKSUM_ZILOG2 ∨ cksum_type = ZIO_CHECKSUM_FLETCHER_4 then
    p.fletcher4 buff == cksum
  else if cksum_type = ZIO_CHECKSUM_LABEL ∨ cksum_type = ZIO_CHECKSUM_GANG_HEADER ∨
          cksum_type = ZIO_CHECKSUM_SHA256 then
    p.sha256 buff == cksum
  else
    false

/-- Embedding of `BlockReader::Decompress` (BlockReader.cpp:147-180).  `dst` is the caller's
buffer (`std::vector<uint8_t>&`), whose prior contents matter for the codecs
that write in place:
* `ON`/`LZJB`: `dst.resize(lsize)` then the codec fills it — result is exactly
  `lsize` bytes of codec output;
* `OFF`/`EMPTY`: `dst.swap(src)` — result is exactly the source bytes;
* `GZIP_1..9` and `ZLE`: the codec writes `lsize` bytes through `dst.data()`
  without resizing `dst`, so bytes of `dst` beyond `lsize` survive (when `dst`
  is shorter than `lsize` the source writes out of bounds; the model extends);
* anything else: `ASSERT(0); return false`.
Returns the new contents of `dst` on success, `none` on failure. -/
def Decompress (p : Prims) (src dst : List Nat) (lsize : Nat) (comp_type : Nat) :
    Option (List Nat) :=
  if comp_type = ZIO_COMPRESS_ON ∨ comp_type = ZIO_COMPRESS_LZJB then
    some ((p.lzjb src lsize).takeD lsize 0)
  else if comp_type = ZIO_COMPRESS_OFF ∨ comp_type = ZIO_COMPRESS_EMPTY then
    some src
  else if ZIO_COMPRESS_GZIP_1 ≤ comp_type ∧ comp_type ≤ ZIO_COMPRESS_GZIP_9 then
    some ((p.gzip src lsize).takeD lsize 0 ++ dst.drop lsize)
  else if comp_type = ZIO_COMPRESS_ZLE then
    some ((p.zle src lsize).takeD lsize 0 ++ dst.drop lsize)
  else
    none

/-- One iteration of the vdev scan inside `BlockReader::Read`
(BlockReader.cpp:79-107): skip a device whose id does not match the address,
otherwise read `(psize+1)*512` bytes at `offset*512`, verify, decompress. -/
def tryVdev (p : Prims) (bp : blkptr_t) (dst : List Nat) (addr : dva_t)
    (vdev : VirtualDevice) : Option (List Nat) :=
  if vdev.id ≠ addr.vdev then
    none
  else
    let psize := (bp.psize + 1) * 512
    let lsize := (bp.lsize + 1) * 512
    let src := vdev.Read psize (addr.offset * 512)
    if Verify p src bp.cksum_type bp.cksum then
      Decompress p src dst lsize bp.comp_type
    else
      none

/-- The vdev loop of `BlockReader::Read` for one address: first success wins,
any failure moves on to the next device. -/
def tryVdevs (p : Prims) (bp : blkptr_t) (dst : List Nat) (addr : dva_t) :
    List VirtualDevice → Option (List Nat)
  | [] => none
  | v :: vs =>
    match tryVdev p bp dst addr v with
    | some d => some d
    | none => tryVdevs p bp dst addr vs

/-- The address loop of `BlockReader::Read`: try each of the three addresses in
order; first success wins. -/
def tryDvas (p : Prims) (pool : Pool) (bp : blkptr_t) (dst : List Nat) :
    List dva_t → Option (List Nat)
  | [] => none
  | a :: as_ =>
    match tryVdevs p bp dst a pool.m_vdevs with
    | some d => some d
    | none => tryDvas p pool bp dst as_

/-- Embedding of `BlockReader::Read` (BlockReader.cpp:71-111): resolve one descriptor by
trying its three addresses in order against the pool's devices; exhausting all
of them is failure.  Note: the source's only gang-flag handling is
`ASSERT(addr->gang == 0)` (line 77), a debug-only no-op, so the gang flag is
ignored here exactly as in a release build.  `dst` is the caller's destination
buffer, whose prior contents feed the in-place codecs in `Decompress`. -/
def Read (p : Prims) (pool : Pool) (dst : List Nat) (bp : blkptr_t) :
    Option (List Nat) :=
  tryDvas p pool bp dst [bp.dva0, bp.dva1, bp.dva2]

/-- Embedding of `BlockReader::Insert` (BlockReader.cpp:43-69): filter out descriptors whose
object type is `DMU_OT_NONE`; append to an empty queue, otherwise prepend the
batch in order ahead of the pending items. -/
def Insert (new q : List blkptr_t) : List blkptr_t :=
  if q.isEmpty then
    new.filter (fun b => b.type != DMU_OT_NONE)
  else
    new.filter (fun b => b.type != DMU_OT_NONE) ++ q

/-- The record size `sizeof(blkptr_t)`. Modelled from the spec: three 128-bit addresses plus
size/type/level/algorithm fields and a 256-bit checksum — the standard 128-byte
ZFS block-pointer record (the struct itself lives in the missing header). -/
def sizeofBlkptr : Nat := 128

/-- The reinterpretation `(blkptr_t*)buff.data()` with count
`buff.size() / sizeof(blkptr_t)` (BlockReader.cpp:211, 272): integer division,
so a trailing partial record is silently dropped. -/
def reinterpretBlkptrs (p : Prims) (d : List Nat) : List blkptr_t :=
  (List.range (d.length / sizeofBlkptr)).map
    (fun i => p.parseBlkptr ((d.drop (i * sizeofBlkptr)).take sizeofBlkptr))

/-- Result of the shared indirection-expansion loop (`while(bp->lvl > 0)`,
BlockReader.cpp:204-216 and 261-277): the loop reaches a level-0 descriptor
(carrying the queue and the scratch buffer's contents), a resolution inside it
fails, or the unguarded `m_bpl.front()` after `Insert` runs on an empty queue —
undefined behaviour in the source, made explicit here as `crash`.  `spin`
records running out of fuel (the source loop has no termination guarantee). -/
inductive ExpandRes where
  | leaf (bp : blkptr_t) (q : List blkptr_t) (buff : List Nat)
  | failed (q : List blkptr_t)
  | crash
  | spin
deriving Repr, DecidableEq

/-- The `while(bp->lvl > 0)` expansion loop shared by `BlockStream::ReadNext`
and the `BlockFile` constructor: resolve the indirect descriptor, reinterpret
its payload as packed `blkptr_t` records, `Insert` (prepend) them, pop the new
front.  `buff` is the in-out scratch buffer (`std::vector<uint8_t>& buff`),
whose prior contents matter for the in-place codecs; `fuel` bounds the number
of expansions. -/
def expandFront (p : Prims) (pool : Pool) :
    Nat → blkptr_t → List blkptr_t → List Nat → ExpandRes
  | fuel, bp, q, buff =>
    if 0 < bp.lvl then
      match fuel with
      | 0 => .spin
      | fuel + 1 =>
        match Read p pool buff bp with
        | none => .failed q
        | some d =>
          match Insert (reinterpretBlkptrs p d) q with
          | [] => .crash
          | bp' :: q' => expandFront p pool fuel bp' q' d
    else
      .leaf bp q buff

/-- Result of one `BlockStream::ReadNext` call: a leaf payload, normal
exhaustion (`m_bpl.empty()` on entry, returns false), a resolution failure
(also returns false — the caller cannot tell the two apart), the empty-front
crash, or fuel exhaustion. -/
inductive StreamStep where
  | yield (d : List Nat) (q : List blkptr_t)
  | done
  | failed (q : List blkptr_t)
  | crash
  | spin
deriving Repr, DecidableEq

/-- Embedding of `BlockStream::ReadNext` (BlockReader.cpp:193-219): pop the front
descriptor, expand indirection down to level 0, then resolve the leaf into the
caller's buffer.  `buff` is the caller's in-out buffer. -/
def ReadNext (p : Prims) (pool : Pool) (fuel : Nat) (q : List blkptr_t)
    (buff : List Nat) : StreamStep :=
  match q with
  | [] => .done
  | bp :: rest =>
    match expandFront p pool fuel bp rest buff with
    | .leaf bp' q' buff' =>
      match Read p pool buff' bp' with
      | none => .failed q'
      | some d => .yield d q'
    | .failed q' => .failed q'
    | .crash => .crash
    | .spin => .spin

/-- Result of `BlockStream::ReadToEnd`: the source function has a single
`return true`, so apart from the modelled crash/fuel cases it always reports
success, carrying whatever was accumulated. -/
inductive ToEndRes where
  | ok (dst : List Nat)
  | crash
  | spin
deriving Repr, DecidableEq

/-- The `while(ReadNext(buff))` loop of `BlockStream::ReadToEnd`
(BlockReader.cpp:221-244): append each chunk to `dst`; the local `buff` is
reused across iterations.  Both a `false` from exhaustion and a `false` from a
resolution failure end the loop, and the function returns `true` either way. -/
def ReadToEndAux (p : Prims) (pool : Pool) :
    Nat → Nat → List blkptr_t → List Nat → List Nat → ToEndRes
  | 0, _, _, _, _ => .spin
  | outer + 1, fuel, q, buff, dst =>
    match ReadNext p pool fuel q buff with
    | .done => .ok dst
    | .failed _ => .ok dst
    | .yield d q' => ReadToEndAux p pool outer fuel q' d (dst ++ d)
    | .crash => .crash
    | .spin => .spin

/-- Embedding of `BlockStream::ReadToEnd` (BlockReader.cpp:221-244): `dst.clear()` then the
append loop, starting from a fresh scratch buffer. -/
def ReadToEnd (p : Prims) (pool : Pool) (outer fuel : Nat) (q : List blkptr_t) :
    ToEndRes :=
  ReadToEndAux p pool outer fuel q [] []

/-- Result of the `BlockFile` constructor loop: the flattened leaf index with
the byte totals, a failed construction (`ASSERT(0); return;` on a resolution
failure, leaving the instance unusable), the empty-front crash, or fuel
exhaustion. -/
inductive CtorRes where
  | ok (index : List blkptr_t) (psize lsize : Nat)
  | fail
  | crash
  | spin
deriving Repr, DecidableEq

/-- The `BlockFile::BlockFile` flattening loop (BlockReader.cpp:253-290): pop
the front descriptor, expand indirection exactly as the stream does (with a
fresh scratch buffer each outer iteration), accumulate the leaf's sector
counts, append the leaf to `l`; when the queue empties, multiply the totals by
512 and install `l` as the leaf index. -/
def ctorLoop (p : Prims) (pool : Pool) :
    Nat → Nat → List blkptr_t → List blkptr_t → Nat → Nat → CtorRes
  | 0, _, _, _, _, _ => .spin
  | outer + 1, fuel, q, l, ps, ls =>
    match q with
    | [] => .ok l (ps * 512) (ls * 512)
    | bp :: rest =>
      match expandFront p pool fuel bp rest [] with
      | .leaf bp' q' _ =>
        ctorLoop p pool outer fuel q' (l ++ [bp']) (ps + bp'.psize + 1) (ls + bp'.lsize + 1)
      | .failed _ => .fail
      | .crash => .crash
      | .spin => .spin

/-- The single-block decompressed cache of `BlockFile` (`m_cache`): the
identity of the cached leaf, if any, as its position in the leaf index
(positions model the node pointers compared by `m_cache.bp != bp`), plus the
cached decompressed bytes. -/
structure Cache where
  bp : Option Nat
  buff : List Nat
deriving Repr, DecidableEq

/-- The cache-refill step of `BlockFile::Read` (BlockReader.cpp:323-331 and
347-355): if the cached identity differs from the wanted leaf, resolve the leaf
into the cache buffer (the outer occurrence goes through `Pool::Read`, modelled
from the spec as "a single-pointer resolve primitive with the same contract as
this core's own resolution", hence the same `Read`; the inner occurrence calls
`__super::Read` directly), and remember its identity.  A resolution failure
returns `none` (the call returns false). -/
def refill (p : Prims) (pool : Pool) (cache : Cache) (pos : Nat) (bp : blkptr_t) :
    Option (Cache × List Nat) :=
  if cache.bp = some pos then
    some (cache, cache.buff)
  else
    match Read p pool cache.buff bp with
    | none => none
    | some d => some (⟨some pos, d⟩, d)

/-- The inner `while(size > 0 && ++i != m_bpl.end())` loop of `BlockFile::Read`
(BlockReader.cpp:340-365): for each subsequent leaf, refill the cache and copy
the needed prefix (`min(size, lsize)` bytes from the buffer start).  Returns
the bytes copied so far (appended to `acc`) on success (`size == 0`), `none`
when the leaves run out with bytes still missing or a resolution fails. -/
def bfInner (p : Prims) (pool : Pool) :
    List blkptr_t → Nat → Nat → Cache → List Nat → Option (List Nat) × Cache
  | _, _, 0, cache, acc => (some acc, cache)
  | [], _, _ + 1, cache, _ => (none, cache)
  | bp :: rest, pos, size + 1, cache, acc =>
    let lsize := (bp.lsize + 1) * 512
    match refill p pool cache pos bp with
    | none => (none, cache)
    | some (cache', buff) =>
      let n := min (size + 1) lsize
      bfInner p pool rest (pos + 1) (size + 1 - n) cache' (acc ++ buff.take n)

/-- The outer leaf-index walk of `BlockFile::Read` (BlockReader.cpp:314-373):
accumulate each leaf's logical extent until the one containing `offset`, refill
the cache, copy the overlapping suffix (`min(size, lnext - offset)` bytes at
sub-offset `offset - lstart`), then continue with the inner loop.  Falling off
the end without locating `offset` returns false. -/
def bfWalk (p : Prims) (pool : Pool) :
    List blkptr_t → Nat → Nat → Nat → Nat → Cache → Option (List Nat) × Cache
  | [], _, _, _, _, cache => (none, cache)
  | bp :: rest, pos, lstart, size, offset, cache =>
    let lsize := (bp.lsize + 1) * 512
    let lnext := lstart + lsize
    if offset < lnext then
      match refill p pool cache pos bp with
      | none => (none, cache)
      | some (cache', buff) =>
        let n := min size (lnext - offset)
        bfInner p pool rest (pos + 1) (size - n) cache' ((buff.drop (offset - lstart)).take n)
    else
      bfWalk p pool rest (pos + 1) lnext size offset cache

/-- Embedding of `BlockFile::Read(dst, size, offset)` (BlockReader.cpp:297-376): the range
check `offset + size > m_lsize` is 64-bit unsigned arithmetic, so the sum wraps
modulo `2^64`; on success the returned list is the bytes copied into `dst`. -/
def BlockFile.Read (p : Prims) (pool : Pool) (index : List blkptr_t)
    (m_lsize : Nat) (cache : Cache) (size offset : Nat) :
    Option (List Nat) × Cache :=
  let e := (offset + size) % 2 ^ 64
  if m_lsize < e then
    (none, cache)
  else
    bfWalk p pool index 0 0 size offset cache

/-- The payload a descriptor resolves to from a fresh scratch buffer. -/
def payload0 (p : Prims) (pool : Pool) (bp : blkptr_t) : List Nat :=
  (Read p pool [] bp).getD []

/-- Concatenation of the fresh-buffer payloads of a leaf list. -/
def flattenPayloads (p : Prims) (pool : Pool) (index : List blkptr_t) : List Nat :=
  (index.map (payload0 p pool)).flatten

/-- Total logical byte extent of a leaf list: each leaf covers
`(lsize + 1) * 512` bytes. -/
def totalExtent (index : List blkptr_t) : Nat :=
  (index.map (fun b => (b.lsize + 1) * 512)).sum

/-- The byte range `[off, off + n)` of a list. -/
def extract (l : List Nat) (off n : Nat) : List Nat :=
  (l.drop off).take n

/-- A compression code whose `Decompress` result does not depend on the
destination buffer's prior contents: everything except the in-place
`GZIP_1..9` and `ZLE` codecs. -/
def dstFree (bp : blkptr_t) : Prop :=
  ¬(ZIO_COMPRESS_GZIP_1 ≤ bp.comp_type ∧ bp.comp_type ≤ ZIO_COMPRESS_GZIP_9) ∧
    bp.comp_type ≠ ZIO_COMPRESS_ZLE

instance (bp : blkptr_t) : Decidable (dstFree bp) := by
  unfold dstFree; infer_instance

/-- The checksum codes recognized by `BlockReader::Verify`. -/
def cksumKnown (c : Nat) : Prop :=
  c = ZIO_CHECKSUM_OFF ∨ c = ZIO_CHECKSUM_ON ∨ c = ZIO_CHECKSUM_ZILOG ∨
    c = ZIO_CHECKSUM_FLETCHER_2 ∨ c = ZIO_CHECKSUM_ZILOG2 ∨
    c = ZIO_CHECKSUM_FLETCHER_4 ∨ c = ZIO_CHECKSUM_LABEL ∨
    c = ZIO_CHECKSUM_GANG_HEADER ∨ c = ZIO_CHECKSUM_SHA256

instance (c : Nat) : Decidable (cksumKnown c) := by
  unfold cksumKnown; infer_instance

/-- The compression codes recognized by `BlockReader::Decompress`. -/
def compKnown (c : Nat) : Prop :=
  c = ZIO_COMPRESS_ON ∨ c = ZIO_COMPRESS_LZJB ∨ c = ZIO_COMPRESS_OFF ∨
    c = ZIO_COMPRESS_EMPTY ∨ (ZIO_COMPRESS_GZIP_1 ≤ c ∧ c ≤ ZIO_COMPRESS_GZIP_9) ∨
    c = ZIO_COMPRESS_ZLE

instance (c : Nat) : Decidable (compKnown c) := by
  unfold compKnown; infer_instance

/-- A coherent cache for a leaf index: empty, or holding exactly the
fresh-buffer payload of the leaf it names. -/
def CacheOK (p : Prims) (pool : Pool) (index : List blkptr_t) (c : Cache) : Prop :=
  c.bp = none ∨
    ∃ i b, c.bp = some i ∧ index.get? i = some b ∧ c.buff = payload0 p pool b

/-- A well-behaved leaf for the random-access/stream equivalence: its
compression is buffer-independent, it resolves, and its payload's length
matches its declared logical extent. -/
def LeafOK (p : Prims) (pool : Pool) (b : blkptr_t) : Prop :=
  dstFree b ∧ Read p pool [] b = some (payload0 p pool b) ∧
    (payload0 p pool b).length = (b.lsize + 1) * 512

/-! Concrete fixtures used by witnesses and counterexamples. -/

/-- Trivial concrete external primitives; `parseBlkptr` yields the all-zero
record (whose object type is `DMU_OT_NONE`). -/
def prims0 : Prims :=
  { fletcher2 := fun _ => default
    fletcher4 := fun _ => default
    sha256 := fun _ => default
    lzjb := fun _ _ => []
    gzip := fun _ _ => List.replicate 512 1
    zle := fun _ _ => []
    parseBlkptr := fun _ => default }

/-- A single all-zero backing device with id 0. -/
def vdev0 : VirtualDevice := ⟨0, fun _ => 0⟩

/-- A pool holding just `vdev0`. -/
def pool1 : Pool := ⟨[vdev0]⟩

/-- A pool with no devices at all. -/
def pool0 : Pool := ⟨[]⟩

/-- A minimal live leaf descriptor: one sector physical and logical, stored on
`vdev0`, checksum `OFF`, compression `OFF`. -/
def leafBp : blkptr_t :=
  { dva0 := ⟨0, 0, false⟩, dva1 := default, dva2 := default
    psize := 0, lsize := 0, type := 1, lvl := 0
    cksum_type := ZIO_CHECKSUM_OFF, comp_type := ZIO_COMPRESS_OFF, cksum := default }

/-- The same leaf with the gang flag set on its first address. -/
def gangBp : blkptr_t := { leafBp with dva0 := ⟨0, 0, true⟩ }

/-- A leaf whose declared logical size (2 sectors = 1024 bytes) disagrees with
its physical size (1 sector = 512 bytes) under `OFF` compression. -/
def leafA : blkptr_t := { leafBp with lsize := 1 }

/-- A descriptor that never resolves: its checksum algorithm code 99 is
unrecognized, so `Verify` fails on every address. -/
def failBp : blkptr_t := { leafBp with cksum_type := 99 }

/-- An indirect (level-1) descriptor compressed with `GZIP_1`. -/
def gzRoot : blkptr_t := { leafBp with lvl := 1, comp_type := ZIO_COMPRESS_GZIP_1 }

/-- An indirect (level-1) descriptor with `OFF` compression. -/
def indBp : blkptr_t := { leafBp with lvl := 1 }

/-- Primitives whose `parseBlkptr` yields the live leaf `leafBp` for every
record, so every expansion produces live children. -/
def primsLeaf : Prims := { prims0 with parseBlkptr := fun _ => leafBp }

/-- A descriptor marking an unused slot (`objectType == NONE`). -/
def noneBp : blkptr_t := { leafBp with type := DMU_OT_NONE }

/-- The 513-byte caller buffer used in the C2 counterexample. -/
def buff513 : List Nat := List.replicate 513 9

/-! Helper lemmas about the resolution pipeline. -/

/-- An unrecognized checksum-algorithm code makes `Verify` return false. -/
theorem Verify_unknown (p : Prims) (buff : List Nat) (ct : Nat) (ck : Cksum)
    (h : ¬cksumKnown ct) : Verify p buff ct ck = false := by
  unfold cksumKnown ZIO_CHECKSUM_OFF ZIO_CHECKSUM_ON ZIO_CHECKSUM_ZILOG
    ZIO_CHECKSUM_FLETCHER_2 ZIO_CHECKSUM_ZILOG2 ZIO_CHECKSUM_FLETCHER_4
    ZIO_CHECKSUM_LABEL ZIO_CHECKSUM_GANG_HEADER ZIO_CHECKSUM_SHA256 at h
  unfold Verify ZIO_CHECKSUM_OFF ZIO_CHECKSUM_ON ZIO_CHECKSUM_ZILOG
    ZIO_CHECKSUM_FLETCHER_2 ZIO_CHECKSUM_ZILOG2 ZIO_CHECKSUM_FLETCHER_4
    ZIO_CHECKSUM_LABEL ZIO_CHECKSUM_GANG_HEADER ZIO_CHECKSUM_SHA256
  split_ifs <;> first | rfl | (exfalso; omega)

/-- An unrecognized compression-algorithm code makes `Decompress` fail. -/
theorem Decompress_unknown (p : Prims) (src dst : List Nat) (lsize ct : Nat)
    (h : ¬compKnown ct) : Decompress p src dst lsize ct = none := by
  unfold compKnown ZIO_COMPRESS_ON ZIO_COMPRESS_LZJB ZIO_COMPRESS_OFF
    ZIO_COMPRESS_EMPTY ZIO_COMPRESS_GZIP_1 ZIO_COMPRESS_GZIP_9 ZIO_COMPRESS_ZLE at h
  unfold Decompress ZIO_COMPRESS_ON ZIO_COMPRESS_LZJB ZIO_COMPRESS_OFF
    ZIO_COMPRESS_EMPTY ZIO_COMPRESS_GZIP_1 ZIO_COMPRESS_GZIP_9 ZIO_COMPRESS_ZLE
  split_ifs <;> first | rfl | (exfalso; omega)

/-- With an unrecognized checksum or compression code, every per-device attempt
fails. -/
theorem tryVdev_unknown (p : Prims) (bp : blkptr_t) (dst : List Nat) (a : dva_t)
    (v : VirtualDevice) (h : ¬cksumKnown bp.cksum_type ∨ ¬compKnown bp.comp_type) :
    tryVdev p bp dst a v = none := by
  unfold tryVdev
  split
  · rfl
  · dsimp only
    rcases h with h | h
    · rw [Verify_unknown _ _ _ _ h]
      simp
    · rw [Decompress_unknown _ _ _ _ _ h]
      split <;> rfl

/-- With an unrecognized checksum or compression code, the vdev scan fails. -/
theorem tryVdevs_unknown (p : Prims) (bp : blkptr_t) (dst : List Nat) (a : dva_t)
    (vs : List VirtualDevice)
    (h : ¬cksumKnown bp.cksum_type ∨ ¬compKnown bp.comp_type) :
    tryVdevs p bp dst a vs = none := by
  induction vs with
  | nil => rfl
  | cons v vs ih =>
    unfold tryVdevs
    rw [tryVdev_unknown _ _ _ _ _ h]
    exact ih

/-- Unfolding of `expandFront` at fuel zero. -/
theorem expandFront_zero (p : Prims) (pool : Pool) (bp : blkptr_t)
    (q : List blkptr_t) (buff : List Nat) :
    expandFront p pool 0 bp q buff =
      if 0 < bp.lvl then .spin else .leaf bp q buff := by
  unfold expandFront
  rfl

/-- Unfolding of `expandFront` at a successor fuel. -/
theorem expandFront_succ (p : Prims) (pool : Pool) (fuel : Nat) (bp : blkptr_t)
    (q : List blkptr_t) (buff : List Nat) :
    expandFront p pool (fuel + 1) bp q buff =
      if 0 < bp.lvl then
        match Read p pool buff bp with
        | none => .failed q
        | some d =>
          match Insert (reinterpretBlkptrs p d) q with
          | [] => .crash
          | bp' :: q' => expandFront p pool fuel bp' q' d
      else
        .leaf bp q buff := by
  conv_lhs => unfold expandFront

/-- Membership in an `Insert` result: either an old queue element, or a new
descriptor that survived the `DMU_OT_NONE` filter. -/
theorem Insert_mem {new q : List blkptr_t} {b : blkptr_t} (h : b ∈ Insert new q) :
    b ∈ q ∨ (b ∈ new ∧ b.type ≠ DMU_OT_NONE) := by
  unfold Insert at h
  split at h
  · rw [List.mem_filter] at h
    exact Or.inr ⟨h.1, by simpa using h.2⟩
  · rw [List.mem_append, List.mem_filter] at h
    rcases h with h | h
    · exact Or.inr ⟨h.1, by simpa using h.2⟩
    · exact Or.inl h

/-- An `Insert` result is empty only if every new descriptor was filtered out
(and, in the non-empty-queue branch, never). -/
theorem Insert_eq_nil {new q : List blkptr_t} (h : Insert new q = []) :
    new.filter (fun b => b.type != DMU_OT_NONE) = [] := by
  unfold Insert at h
  split at h
  · exact h
  · exact (List.append_eq_nil.mp h).1

/-- The expansion loop preserves the no-`DMU_OT_NONE` invariant: if the popped
descriptor and the queue are all live, the reached leaf and the remaining queue
are all live. -/
theorem expandFront_type_inv (p : Prims) (pool : Pool) :
    ∀ (fuel : Nat) (bp : blkptr_t) (q : List blkptr_t) (buff : List Nat)
      (ℓ : blkptr_t) (q' : List blkptr_t) (buff' : List Nat),
      bp.type ≠ DMU_OT_NONE → (∀ b ∈ q, b.type ≠ DMU_OT_NONE) →
      expandFront p pool fuel bp q buff = .leaf ℓ q' buff' →
      ℓ.type ≠ DMU_OT_NONE ∧ ∀ b ∈ q', b.type ≠ DMU_OT_NONE := by
  intro fuel
  induction fuel with
  | zero =>
    intro bp q buff ℓ q' buff' hbp hq h
    rw [expandFront_zero] at h
    split at h
    · cases h
    · cases h
      exact ⟨hbp, hq⟩
  | succ fuel ih =>
    intro bp q buff ℓ q' buff' hbp hq h
    rw [expandFront_succ] at h
    split at h
    · split at h
      · cases h
      · split at h
        · cases h
        · rename_i d _ _ b' q'' hI
          have hmem : ∀ b ∈ b' :: q'', b.type ≠ DMU_OT_NONE := by
            intro b hb
            rw [← hI] at hb
            rcases Insert_mem hb with hb | hb
            · exact hq b hb
            · exact hb.2
          exact ih b' q'' d ℓ q' buff' (hmem b' (by simp)) (fun b hb => hmem b (by simp [hb])) h
    · cases h
      exact ⟨hbp, hq⟩

/-- The `BlockFile` constructor loop preserves the no-`DMU_OT_NONE` invariant
into the leaf index it builds. -/
theorem ctorLoop_type_inv (p : Prims) (pool : Pool) :
    ∀ (outer fuel : Nat) (q l : List blkptr_t) (ps ls : Nat)
      (index : List blkptr_t) (PS LS : Nat),
      (∀ b ∈ q, b.type ≠ DMU_OT_NONE) → (∀ b ∈ l, b.type ≠ DMU_OT_NONE) →
      ctorLoop p pool outer fuel q l ps ls = .ok index PS LS →
      ∀ b ∈ index, b.type ≠ DMU_OT_NONE := by
  intro outer
  induction outer with
  | zero => intro _ _ _ _ _ _ _ _ _ _ h; cases h
  | succ outer ih =>
    intro fuel q l ps ls index PS LS hq hl h
    unfold ctorLoop at h
    cases q with
    | nil =>
      cases h
      exact hl
    | cons bp rest =>
      dsimp only at h
      cases hexp : expandFront p pool fuel bp rest [] with
      | leaf ℓ q' buff' =>
        rw [hexp] at h
        have hinv := expandFront_type_inv p pool fuel bp rest [] ℓ q' buff'
          (hq bp (by simp)) (fun b hb => hq b (by simp [hb])) hexp
        refine ih fuel q' (l ++ [ℓ]) _ _ index PS LS hinv.2 ?_ h
        intro b hb
        rcases List.mem_append.mp hb with hb | hb
        · exact hl b hb
        · rw [List.mem_singleton] at hb
          subst hb
          exact hinv.1
      | failed q' => rw [hexp] at h; cases h
      | crash => rw [hexp] at h; cases h
      | spin => rw [hexp] at h; cases h

/-! Claim theorems. -/

/-- C1.  The claim says `BlockReader::Read` rejects a gang-flagged address
immediately, so that it never contributes output bytes.  The code's only guard
is `ASSERT(addr->gang == 0)` (BlockReader.cpp:77), a debug-only no-op: at the
failing input below (a descriptor whose first address has the gang flag set,
stored on a present device, checksum `OFF`, compression `OFF`) resolution
proceeds through the gang-flagged address and returns the 512 bytes read from
it — contradicting the code's own assertion and the claim. -/
theorem c1_gang_not_rejected :
    gangBp.dva0.gang = true ∧
      Read prims0 pool1 [] gangBp = some (vdev0.Read 512 0) := by
  constructor
  · rfl
  · rfl

/-- C4.  A descriptor whose checksum-algorithm code or compression-algorithm
code is unrecognized never resolves: `Verify` (resp. `Decompress`) fails on
every address and every device, so `BlockReader::Read` fails for the whole
descriptor — no silent default, and no other path yields bytes. -/
theorem c4_unknown_codes_fail (p : Prims) (pool : Pool) (dst : List Nat)
    (bp : blkptr_t)
    (h : ¬cksumKnown bp.cksum_type ∨ ¬compKnown bp.comp_type) :
    Read p pool dst bp = none := by
  unfold Read tryDvas
  rw [tryVdevs_unknown _ _ _ _ _ h]
  unfold tryDvas
  rw [tryVdevs_unknown _ _ _ _ _ h]
  unfold tryDvas
  rw [tryVdevs_unknown _ _ _ _ _ h]
  rfl

/-- Witness for C4 at a concrete input: checksum code 99 is unrecognized and
the descriptor fails to resolve even though its address and device are
otherwise valid. -/
theorem c4_witness : Read prims0 pool1 [] failBp = none :=
  c4_unknown_codes_fail prims0 pool1 [] failBp (Or.inl (by decide))

/-- C8 counterexample.  The claim says `OFF`/`EMPTY` decoding "does not succeed
with a wrongly-sized output" when the physical byte size differs from the
declared logical byte size.  But `Decompress` on `OFF` is `dst.swap(src)` with
no size check (BlockReader.cpp:156-158): on a 512-byte input with declared
logical size 1024 it succeeds and returns the 512-byte input unchanged. -/
theorem c8_counterexample :
    Decompress prims0 (List.replicate 512 3) [] 1024 ZIO_COMPRESS_OFF =
        some (List.replicate 512 3) ∧
      (List.replicate 512 3).length ≠ 1024 := by
  constructor
  · rfl
  · rw [List.length_replicate]
    decide

/-- C8 as amended: for the compression codes `OFF` and `EMPTY`, `Decompress`
performs an identity copy — the output bytes equal the input bytes — and
succeeds unconditionally: no agreement between the input's length and the
declared logical size is checked, so the output length is the input length
whatever `lsize` says. -/
theorem c8_off_identity (p : Prims) (src dst : List Nat) (lsize ct : Nat)
    (h : ct = ZIO_COMPRESS_OFF ∨ ct = ZIO_COMPRESS_EMPTY) :
    Decompress p src dst lsize ct = some src := by
  rcases h with h | h <;> subst h <;> rfl

/-- Witness for C8 at a concrete input. -/
theorem c8_witness : Decompress prims0 [7] [] 4096 ZIO_COMPRESS_EMPTY = some [7] :=
  c8_off_identity prims0 [7] [] 4096 ZIO_COMPRESS_EMPTY (Or.inr rfl)

/-- C6 counterexample.  The claim says every request with `offset + size`
exceeding the total logical size fails immediately with no device I/O.  The
range check `offset + size > m_lsize` is 64-bit arithmetic
(BlockReader.cpp:301-306): with `offset = 1`, `size = 2^64 - 1` the sum wraps
to 0, the check passes, and the walk resolves a leaf — observable as the cache
being filled (device I/O) — although `offset + size = 2^64` far exceeds the
512-byte total. -/
theorem c6_counterexample :
    512 < 1 + (2 ^ 64 - 1) ∧
      (BlockFile.Read prims0 pool1 [leafBp] 512 ⟨none, []⟩ (2 ^ 64 - 1) 1).2.bp =
        some 0 := by
  constructor
  · norm_num
  · rfl

/-- C6 as amended: whenever `offset + size` exceeds the total logical size
*and* the 64-bit sum does not wrap (`offset + size < 2^64`), `BlockFile::Read`
fails immediately: no leaf is resolved (the cache is untouched, hence no device
I/O) and nothing is copied. -/
theorem c6_range_check (p : Prims) (pool : Pool) (index : List blkptr_t)
    (m_lsize : Nat) (cache : Cache) (size offset : Nat)
    (h1 : m_lsize < offset + size) (h2 : offset + size < 2 ^ 64) :
    BlockFile.Read p pool index m_lsize cache size offset = (none, cache) := by
  unfold BlockFile.Read
  rw [Nat.mod_eq_of_lt h2, if_pos h1]

/-- Witness for C6 at a concrete input. -/
theorem c6_witness :
    BlockFile.Read prims0 pool1 [leafBp] 512 ⟨none, []⟩ 600 0 = (none, ⟨none, []⟩) :=
  c6_range_check prims0 pool1 [leafBp] 512 ⟨none, []⟩ 600 0 (by norm_num) (by norm_num)

/-- C7.  Descriptors with `objectType == NONE` are dropped silently by
`Insert`, so (1) an `Insert` into a queue holding no `DMU_OT_NONE` descriptor
yields a queue holding none, and (2) a `BlockFile` constructed from any root
descriptor set (whose initial queue is `Insert bps []`, as in the `BlockReader`
constructor) has no `DMU_OT_NONE` descriptor in its leaf index. -/
theorem c7_no_none_in_queue_or_index (p : Prims) (pool : Pool) :
    (∀ (new q : List blkptr_t), (∀ b ∈ q, b.type ≠ DMU_OT_NONE) →
        ∀ b ∈ Insert new q, b.type ≠ DMU_OT_NONE) ∧
      (∀ (outer fuel : Nat) (bps index : List blkptr_t) (PS LS : Nat),
        ctorLoop p pool outer fuel (Insert bps []) [] 0 0 = .ok index PS LS →
        ∀ b ∈ index, b.type ≠ DMU_OT_NONE) := by
  have hins : ∀ (new q : List blkptr_t), (∀ b ∈ q, b.type ≠ DMU_OT_NONE) →
      ∀ b ∈ Insert new q, b.type ≠ DMU_OT_NONE := by
    intro new q hq b hb
    rcases Insert_mem hb with hb | hb
    · exact hq b hb
    · exact hb.2
  refine ⟨hins, ?_⟩
  intro outer fuel bps index PS LS h
  exact ctorLoop_type_inv p pool outer fuel (Insert bps []) [] 0 0 index PS LS
    (hins bps [] (by simp)) (by simp) h

/-- Witness for C7 at concrete inputs: inserting `[noneBp, gangBp]` into
`[leafBp]` and running the constructor on the root set `[leafBp]`. -/
theorem c7_witness :
    gangBp.type ≠ DMU_OT_NONE ∧ leafBp.type ≠ DMU_OT_NONE :=
  ⟨(c7_no_none_in_queue_or_index prims0 pool1).1 [noneBp, gangBp] [leafBp]
      (by decide) gangBp (by decide),
    (c7_no_none_in_queue_or_index prims0 pool1).2 2 1 [leafBp] [leafBp] 512 512
      rfl leafBp (by decide)⟩

set_option maxRecDepth 4000 in
/-- C2 counterexample.  The claim says an indirect payload whose byte length is
not a whole multiple of `sizeof(blkptr_t)` makes `ReadNext` fail hard (a
TreeCorruption error) with no partial result.  In the source there is no such
check: `Insert((blkptr_t*)buff.data(), buff.size() / sizeof(blkptr_t))`
truncates.  Concretely, a level-1 `GZIP_1` descriptor resolved into a 513-byte
caller buffer produces a 513-byte payload (the in-place codec leaves the 513th
byte of the buffer alive), `513 % 128 = 1 ≠ 0`, yet `ReadNext` succeeds,
yielding a leaf payload and a 3-descriptor queue from the 4 whole records. -/
theorem c2_counterexample :
    Read primsLeaf pool1 buff513 gzRoot = some (List.replicate 512 1 ++ [9]) ∧
      (List.replicate 512 1 ++ [9]).length % sizeofBlkptr ≠ 0 ∧
      ReadNext primsLeaf pool1 2 [gzRoot] buff513 =
        .yield (vdev0.Read 512 0) [leafBp, leafBp, leafBp] := by
  refine ⟨rfl, ?_, rfl⟩
  rw [List.length_append, List.length_replicate]
  decide

/-- C2 as amended: the reinterpretation of an indirect payload uses the
truncating count `length / sizeof(blkptr_t)` and never fails: the number of
records produced is exactly `⌊length / 128⌋`, and a trailing remainder shorter
than one record is silently ignored — appending fewer than `sizeof(blkptr_t)`
bytes to a whole-record payload changes nothing. -/
theorem c2_truncating_reinterpret (p : Prims) (d extra : List Nat)
    (hd : d.length % sizeofBlkptr = 0) (hx : extra.length < sizeofBlkptr) :
    (reinterpretBlkptrs p (d ++ extra)).length = (d.length + extra.length) / sizeofBlkptr ∧
      reinterpretBlkptrs p (d ++ extra) = reinterpretBlkptrs p d := by
  have h128 : sizeofBlkptr = 128 := rfl
  have hdiv : (d.length + extra.length) / sizeofBlkptr = d.length / sizeofBlkptr := by
    rw [h128] at hd hx ⊢
    omega
  constructor
  · rw [reinterpretBlkptrs, List.length_map, List.length_range, List.length_append]
  · unfold reinterpretBlkptrs
    rw [List.length_append, hdiv]
    refine List.map_congr_left ?_
    intro i hi
    rw [List.mem_range] at hi
    have hle : i * sizeofBlkptr + sizeofBlkptr ≤ d.length := by
      rw [h128] at hd hi ⊢
      omega
    have hdrop : (d ++ extra).drop (i * sizeofBlkptr) =
        d.drop (i * sizeofBlkptr) ++ extra :=
      List.drop_append_of_le_length (by omega)
    rw [hdrop]
    refine congrArg p.parseBlkptr (List.take_append_of_le_length ?_)
    rw [List.length_drop]
    omega

/-- Witness for C2's amended theorem at a concrete input: one whole record plus
a one-byte remainder. -/
theorem c2_witness :
    (reinterpretBlkptrs prims0 (List.replicate 128 0 ++ [5])).length =
        (128 + 1) / sizeofBlkptr ∧
      reinterpretBlkptrs prims0 (List.replicate 128 0 ++ [5]) =
        reinterpretBlkptrs prims0 (List.replicate 128 0) := by
  have h := c2_truncating_reinterpret prims0 (List.replicate 128 0) [5]
    (by rw [List.length_replicate]; decide) (by decide)
  simpa using h

set_option maxRecDepth 4000 in
/-- C3 counterexample.  The claim says that when an inner `ReadNext` fails
because of a resolution failure, `ReadToEnd` "reports failure to the caller,
returning no partial concatenation".  But `ReadToEnd` has a single
`return true` (BlockReader.cpp:243): over the queue `[leafBp, failBp]`, the
first leaf resolves (512 bytes), the second fails resolution (its checksum code
99 is unrecognized), and `ReadToEnd` reports success carrying exactly the
partial, non-empty concatenation of the chunks read so far. -/
theorem c3_counterexample :
    Read prims0 pool1 (vdev0.Read 512 0) failBp = none ∧
      ReadToEnd prims0 pool1 3 1 [leafBp, failBp] = .ok (vdev0.Read 512 0) ∧
      vdev0.Read 512 0 ≠ [] := by
  refine ⟨rfl, rfl, ?_⟩
  simp [VirtualDevice.Read]

/-- C3 as amended: a resolution failure does abort the reading loop (no
partial-subtree skip — no further chunk is emitted), but `ReadToEnd` still
reports success to the caller, leaving in `dst` exactly the concatenation of
the chunks read before the failure; the caller cannot distinguish failure from
normal exhaustion.  Stated over a queue of level-0 descriptors `good` whose
resolutions succeed (independently of the scratch buffer) followed by a
descriptor `bad` whose resolution always fails. -/
theorem c3_readToEnd_partial (p : Prims) (pool : Pool) :
    ∀ (good : List blkptr_t) (bad : blkptr_t) (rest : List blkptr_t)
      (outer fuel : Nat) (buff dst : List Nat),
      (∀ b ∈ good, b.lvl = 0 ∧ ∀ dstb, Read p pool dstb b = some (payload0 p pool b)) →
      bad.lvl = 0 →
      (∀ dstb, Read p pool dstb bad = none) →
      good.length < outer →
      ReadToEndAux p pool outer fuel (good ++ bad :: rest) buff dst =
        .ok (dst ++ flattenPayloads p pool good) := by
  intro good
  induction good with
  | nil =>
    intro bad rest outer fuel buff dst hgood hbadlvl hbad houter
    cases outer with
    | zero => simp at houter
    | succ outer =>
      have hexp : expandFront p pool fuel bad rest buff = .leaf bad rest buff := by
        cases fuel with
        | zero => rw [expandFront_zero, if_neg (by omega)]
        | succ f => rw [expandFront_succ, if_neg (by omega)]
      have hstep : ReadNext p pool fuel ([] ++ bad :: rest) buff = .failed rest := by
        rw [List.nil_append]
        unfold ReadNext
        dsimp only
        rw [hexp]
        dsimp only
        rw [hbad buff]
      unfold ReadToEndAux
      rw [hstep]
      dsimp only
      simp [flattenPayloads]
  | cons g good ih =>
    intro bad rest outer fuel buff dst hgood hbadlvl hbad houter
    cases outer with
    | zero => simp at houter
    | succ outer =>
      have hg := hgood g (by simp)
      have hexp : expandFront p pool fuel g (good ++ bad :: rest) buff =
          .leaf g (good ++ bad :: rest) buff := by
        cases fuel with
        | zero => rw [expandFront_zero, if_neg (by omega)]
        | succ f => rw [expandFront_succ, if_neg (by omega)]
      have hstep : ReadNext p pool fuel ((g :: good) ++ bad :: rest) buff =
          .yield (payload0 p pool g) (good ++ bad :: rest) := by
        rw [List.cons_append]
        unfold ReadNext
        dsimp only
        rw [hexp]
        dsimp only
        rw [hg.2 buff]
      unfold ReadToEndAux
      rw [hstep]
      dsimp only
      have := ih bad rest outer fuel (payload0 p pool g) (dst ++ payload0 p pool g)
        (fun b hb => hgood b (by simp [hb])) hbadlvl hbad (by simpa using houter)
      rw [this]
      simp [flattenPayloads]

set_option maxRecDepth 4000 in
/-- Witness for C3's amended theorem at a concrete input: one resolving leaf
followed by the never-resolving `failBp`. -/
theorem c3_witness :
    ReadToEndAux prims0 pool1 2 1 [leafBp, failBp] [] [] =
      .ok ([] ++ flattenPayloads prims0 pool1 [leafBp]) :=
  c3_readToEnd_partial prims0 pool1 [leafBp] failBp [] 2 1 [] []
    (by
      intro b hb
      rw [List.mem_singleton] at hb
      subst hb
      exact ⟨rfl, fun dstb => rfl⟩)
    rfl (fun dstb => rfl) (by decide)

/-- The expansion loop cannot hit the unguarded-front crash when every
successfully resolved payload contains at least one live child record. -/
theorem expandFront_no_crash (p : Prims) (pool : Pool)
    (hLive : ∀ (bp : blkptr_t) (dstb d : List Nat), Read p pool dstb bp = some d →
      (reinterpretBlkptrs p d).filter (fun b => b.type != DMU_OT_NONE) ≠ []) :
    ∀ (fuel : Nat) (bp : blkptr_t) (q : List blkptr_t) (buff : List Nat),
      expandFront p pool fuel bp q buff ≠ .crash := by
  intro fuel
  induction fuel with
  | zero =>
    intro bp q buff h
    rw [expandFront_zero] at h
    split at h <;> cases h
  | succ fuel ih =>
    intro bp q buff h
    rw [expandFront_succ] at h
    split at h
    · split at h
      · cases h
      · split at h
        · rename_i d hread _x hI
          exact absurd (Insert_eq_nil hI) (hLive _ _ _ hread)
        · exact ih _ _ _ h
    · cases h

/-- C9.  The claim says the unguarded `m_bpl.front()` after `Insert` never runs
on an empty queue.  That is true only under the extra assumption that every
resolved indirect payload yields at least one live (non-`DMU_OT_NONE`) child
record: under that assumption neither `ReadNext` nor the `BlockFile`
constructor can reach the crash. -/
theorem c9_no_crash_with_live_children (p : Prims) (pool : Pool)
    (hLive : ∀ (bp : blkptr_t) (dstb d : List Nat), Read p pool dstb bp = some d →
      (reinterpretBlkptrs p d).filter (fun b => b.type != DMU_OT_NONE) ≠ []) :
    (∀ (fuel : Nat) (q : List blkptr_t) (buff : List Nat),
        ReadNext p pool fuel q buff ≠ .crash) ∧
      (∀ (outer fuel : Nat) (q l : List blkptr_t) (ps ls : Nat),
        ctorLoop p pool outer fuel q l ps ls ≠ .crash) := by
  constructor
  · intro fuel q buff h
    cases q with
    | nil => cases h
    | cons bp rest =>
      unfold ReadNext at h
      dsimp only at h
      cases hexp : expandFront p pool fuel bp rest buff with
      | leaf ℓ q' buff' =>
        rw [hexp] at h
        dsimp only at h
        split at h <;> cases h
      | failed q' => rw [hexp] at h; cases h
      | crash => exact expandFront_no_crash p pool hLive fuel bp rest buff hexp
      | spin => rw [hexp] at h; cases h
  · intro outer
    induction outer with
    | zero => intro fuel q l ps ls h; cases h
    | succ outer ih =>
      intro fuel q l ps ls h
      unfold ctorLoop at h
      cases q with
      | nil => cases h
      | cons bp rest =>
        dsimp only at h
        cases hexp : expandFront p pool fuel bp rest [] with
        | leaf ℓ q' buff' =>
          rw [hexp] at h
          exact ih fuel q' (l ++ [ℓ]) _ _ h
        | failed q' => rw [hexp] at h; cases h
        | crash => exact expandFront_no_crash p pool hLive fuel bp rest [] hexp
        | spin => rw [hexp] at h; cases h

/-- Witness for C9's amended theorem: over the empty pool no descriptor ever
resolves, so the hypothesis holds vacuously and neither operation crashes. -/
theorem c9_witness :
    ReadNext prims0 pool0 1 [indBp] [] ≠ .crash ∧
      ctorLoop prims0 pool0 1 1 [indBp] [] 0 0 ≠ .crash := by
  have hL : ∀ (bp : blkptr_t) (dstb d : List Nat),
      Read prims0 pool0 dstb bp = some d →
      (reinterpretBlkptrs prims0 d).filter (fun b => b.type != DMU_OT_NONE) ≠ [] := by
    intro bp dstb d h
    rw [show Read prims0 pool0 dstb bp = none from rfl] at h
    cases h
  exact ⟨(c9_no_crash_with_live_children prims0 pool0 hL).1 1 [indBp] [],
    (c9_no_crash_with_live_children prims0 pool0 hL).2 1 1 [indBp] [] 0 0⟩

set_option maxRecDepth 4000 in
/-- C9 counterexample.  The crash is reachable: starting from the reachable
queue `[indBp]` (which the `BlockReader` constructor builds from the live root
`indBp` via `Insert`), the level-1 root resolves to a 512-byte payload whose 4
records all parse to `DMU_OT_NONE` slots; `Insert` drops them all, and the
unguarded `m_bpl.front()` runs on the now-empty queue — both in
`BlockStream::ReadNext` and in the `BlockFile` constructor. -/
theorem c9_counterexample :
    Insert [indBp] [] = [indBp] ∧
      ReadNext prims0 pool1 1 [indBp] [] = .crash ∧
      ctorLoop prims0 pool1 2 1 [indBp] [] 0 0 = .crash := by
  exact ⟨rfl, rfl, rfl⟩

/-- Extent of the head of a leaf list. -/
theorem totalExtent_cons (bp : blkptr_t) (rest : List blkptr_t) :
    totalExtent (bp :: rest) = (bp.lsize + 1) * 512 + totalExtent rest := by
  simp [totalExtent]

/-- Unfolding of `bfInner` at size zero (`size == 0` means the copy is
complete and the call returns true). -/
theorem bfInner_zero (p : Prims) (pool : Pool) (idx : List blkptr_t) (pos : Nat)
    (cache : Cache) (acc : List Nat) :
    bfInner p pool idx pos 0 cache acc = (some acc, cache) := by
  cases idx <;> rfl

/-- A refill succeeds whenever the leaf's resolution succeeds for every scratch
buffer (either the cache already holds the leaf, or the leaf is resolved). -/
theorem refill_some (p : Prims) (pool : Pool) (cache : Cache) (pos : Nat)
    (bp : blkptr_t) (h : ∀ dstb, ∃ out, Read p pool dstb bp = some out) :
    ∃ cache' buff, refill p pool cache pos bp = some (cache', buff) := by
  unfold refill
  split
  · exact ⟨cache, cache.buff, rfl⟩
  · obtain ⟨out, hout⟩ := h cache.buff
    rw [hout]
    exact ⟨_, _, rfl⟩

/-- The leaf-index walk of `BlockFile::Read` falls off the end (returning
false and leaving the cache untouched) whenever `offset` is at or beyond the
end of the remaining extent. -/
theorem bfWalk_past_end (p : Prims) (pool : Pool) :
    ∀ (idx : List blkptr_t) (pos lstart size offset : Nat) (cache : Cache),
      lstart + totalExtent idx ≤ offset →
      bfWalk p pool idx pos lstart size offset cache = (none, cache) := by
  intro idx
  induction idx with
  | nil => intro pos lstart size offset cache _; rfl
  | cons bp rest ih =>
    intro pos lstart size offset cache h
    rw [totalExtent_cons] at h
    unfold bfWalk
    dsimp only
    rw [if_neg (by omega)]
    exact ih (pos + 1) (lstart + (bp.lsize + 1) * 512) size offset cache (by omega)

/-- A zero-length request whose offset lies strictly inside the remaining
extent succeeds, copying nothing, provided the containing leaf resolves. -/
theorem bfWalk_zero_size (p : Prims) (pool : Pool) :
    ∀ (idx : List blkptr_t) (pos lstart offset : Nat) (cache : Cache),
      (∀ b ∈ idx, ∀ dstb, ∃ out, Read p pool dstb b = some out) →
      lstart ≤ offset → offset < lstart + totalExtent idx →
      (bfWalk p pool idx pos lstart 0 offset cache).1 = some [] := by
  intro idx
  induction idx with
  | nil =>
    intro pos lstart offset cache _ hlo hhi
    simp [totalExtent] at hhi
    omega
  | cons bp rest ih =>
    intro pos lstart offset cache hres hlo hhi
    rw [totalExtent_cons] at hhi
    unfold bfWalk
    dsimp only
    by_cases hoff : offset < lstart + (bp.lsize + 1) * 512
    · rw [if_pos hoff]
      obtain ⟨cache', buff, hrf⟩ := refill_some p pool cache pos bp (hres bp (by simp))
      rw [hrf]
      dsimp only
      rw [Nat.zero_min, Nat.sub_zero, List.take_zero, bfInner_zero]
    · rw [if_neg hoff]
      exact ih (pos + 1) (lstart + (bp.lsize + 1) * 512) offset cache
        (fun b hb => hres b (by simp [hb])) (by omega) (by omega)

/-- C10.  With all leaves resolving, a zero-length `BlockFile::Read` succeeds
(copying nothing) at every offset strictly below the total logical size, but
fails at `offset = totalSize` — including the empty-file case `totalSize = 0`,
`offset = 0` — because the walk never finds a leaf whose extent strictly
contains the offset. -/
theorem c10_zero_length_read (p : Prims) (pool : Pool) (index : List blkptr_t)
    (cache : Cache) (offset : Nat)
    (hres : ∀ b ∈ index, ∀ dstb, ∃ out, Read p pool dstb b = some out)
    (h64 : totalExtent index < 2 ^ 64) :
    (offset < totalExtent index →
      (BlockFile.Read p pool index (totalExtent index) cache 0 offset).1 = some []) ∧
      (BlockFile.Read p pool index (totalExtent index) cache 0
          (totalExtent index)).1 = none := by
  constructor
  · intro hoff
    unfold BlockFile.Read
    rw [Nat.mod_eq_of_lt (by omega), if_neg (by omega)]
    exact bfWalk_zero_size p pool index 0 0 offset cache hres (Nat.zero_le _) (by omega)
  · unfold BlockFile.Read
    rw [Nat.mod_eq_of_lt (by omega), if_neg (by omega)]
    rw [bfWalk_past_end p pool index 0 0 0 (totalExtent index) cache (by omega)]

/-- Witness for C10 at a concrete input: a one-leaf file of 512 bytes, read at
offset 0 (succeeds with nothing) and at offset 512 = totalSize (fails). -/
theorem c10_witness :
    (BlockFile.Read prims0 pool1 [leafBp] (totalExtent [leafBp]) ⟨none, []⟩ 0 0).1 =
        some [] ∧
      (BlockFile.Read prims0 pool1 [leafBp] (totalExtent [leafBp]) ⟨none, []⟩ 0
          (totalExtent [leafBp])).1 = none := by
  have h := c10_zero_length_read prims0 pool1 [leafBp] ⟨none, []⟩ 0
    (by
      intro b hb dstb
      rw [List.mem_singleton] at hb
      subst hb
      exact ⟨vdev0.Read 512 0, rfl⟩)
    (by decide)
  exact ⟨h.1 (by decide), h.2⟩

/-! Buffer-independence of resolution for descriptors that avoid the in-place
codecs, and the resulting correspondence between the `BlockFile` constructor
and the stream reader. -/

/-- For a compression code outside `GZIP_1..9`/`ZLE`, `Decompress` does not
look at the destination buffer's prior contents. -/
theorem Decompress_dstFree (p : Prims) (src dst dst' : List Nat) (lsize ct : Nat)
    (h1 : ¬(ZIO_COMPRESS_GZIP_1 ≤ ct ∧ ct ≤ ZIO_COMPRESS_GZIP_9))
    (h2 : ct ≠ ZIO_COMPRESS_ZLE) :
    Decompress p src dst lsize ct = Decompress p src dst' lsize ct := by
  unfold Decompress
  split_ifs <;> rfl

/-- Per-device resolution of a buffer-independent descriptor ignores the
destination buffer. -/
theorem tryVdev_dstFree (p : Prims) (bp : blkptr_t) (dst dst' : List Nat)
    (a : dva_t) (v : VirtualDevice) (h : dstFree bp) :
    tryVdev p bp dst a v = tryVdev p bp dst' a v := by
  unfold tryVdev
  split
  · rfl
  · dsimp only
    split
    · exact Decompress_dstFree p _ dst dst' _ _ h.1 h.2
    · rfl

/-- The vdev scan of a buffer-independent descriptor ignores the destination
buffer. -/
theorem tryVdevs_dstFree (p : Prims) (bp : blkptr_t) (dst dst' : List Nat)
    (a : dva_t) (vs : List VirtualDevice) (h : dstFree bp) :
    tryVdevs p bp dst a vs = tryVdevs p bp dst' a vs := by
  induction vs with
  | nil => rfl
  | cons v vs ih =>
    unfold tryVdevs
    rw [tryVdev_dstFree p bp dst dst' a v h, ih]

/-- Resolution of a buffer-independent descriptor ignores the destination
buffer entirely. -/
theorem Read_dstFree (p : Prims) (pool : Pool) (dst dst' : List Nat)
    (bp : blkptr_t) (h : dstFree bp) :
    Read p pool dst bp = Read p pool dst' bp := by
  unfold Read tryDvas
  rw [tryVdevs_dstFree p bp dst dst' _ _ h]
  unfold tryDvas
  rw [tryVdevs_dstFree p bp dst dst' _ _ h]
  unfold tryDvas
  rw [tryVdevs_dstFree p bp dst dst' _ _ h]
  rfl

/-- A level-0 descriptor leaves the expansion loop immediately, whatever the
fuel. -/
theorem expandFront_leaf (p : Prims) (pool : Pool) (fuel : Nat) (bp : blkptr_t)
    (q : List blkptr_t) (buff : List Nat) (h : bp.lvl = 0) :
    expandFront p pool fuel bp q buff = .leaf bp q buff := by
  cases fuel with
  | zero => rw [expandFront_zero, if_neg (by omega)]
  | succ f => rw [expandFront_succ, if_neg (by omega)]

/-- Every record parsed out of a payload is buffer-independent when the record
parser only produces buffer-independent descriptors. -/
theorem mem_reinterpret_dstFree (p : Prims)
    (hP : ∀ bytes, dstFree (p.parseBlkptr bytes)) (d : List Nat) :
    ∀ b ∈ reinterpretBlkptrs p d, dstFree b := by
  intro b hb
  unfold reinterpretBlkptrs at hb
  obtain ⟨i, _, hparse⟩ := List.mem_map.mp hb
  rw [← hparse]
  exact hP _

/-- The expansion loop preserves buffer-independence of the queue. -/
theorem expandFront_dstFree_inv (p : Prims) (pool : Pool)
    (hP : ∀ bytes, dstFree (p.parseBlkptr bytes)) :
    ∀ (fuel : Nat) (bp : blkptr_t) (q : List blkptr_t) (buff : List Nat)
      (ℓ : blkptr_t) (q' : List blkptr_t) (buff' : List Nat),
      dstFree bp → (∀ b ∈ q, dstFree b) →
      expandFront p pool fuel bp q buff = .leaf ℓ q' buff' →
      dstFree ℓ ∧ ∀ b ∈ q', dstFree b := by
  intro fuel
  induction fuel with
  | zero =>
    intro bp q buff ℓ q' buff' hbp hq h
    rw [expandFront_zero] at h
    split at h
    · cases h
    · cases h
      exact ⟨hbp, hq⟩
  | succ fuel ih =>
    intro bp q buff ℓ q' buff' hbp hq h
    rw [expandFront_succ] at h
    split at h
    · split at h
      · cases h
      · split at h
        · cases h
        · rename_i d _ _ b' q'' hI
          have hmem : ∀ b ∈ b' :: q'', dstFree b := by
            intro b hb
            rw [← hI] at hb
            rcases Insert_mem hb with hb | hb
            · exact hq b hb
            · exact mem_reinterpret_dstFree p hP d b hb.1
          exact ih b' q'' d ℓ q' buff' (hmem b' (by simp)) (fun b hb => hmem b (by simp [hb])) h
    · cases h
      exact ⟨hbp, hq⟩

/-- For a buffer-independent front descriptor with positive level, the
expansion loop's result does not depend on the scratch buffer: the first
expansion overwrites the buffer with the (buffer-independent) payload, and
everything after that coincides. -/
theorem expandFront_buff (p : Prims) (pool : Pool) (fuel : Nat) (bp : blkptr_t)
    (q : List blkptr_t) (buff buff' : List Nat) (hbp : dstFree bp)
    (hlvl : 0 < bp.lvl) :
    expandFront p pool fuel bp q buff = expandFront p pool fuel bp q buff' := by
  cases fuel with
  | zero => rw [expandFront_zero, expandFront_zero, if_pos hlvl, if_pos hlvl]
  | succ f =>
    rw [expandFront_succ, expandFront_succ, if_pos hlvl, if_pos hlvl,
      Read_dstFree p pool buff buff' bp hbp]

/-- The `BlockFile` constructor loop preserves buffer-independence into the
leaf index it builds. -/
theorem ctorLoop_dstFree_inv (p : Prims) (pool : Pool)
    (hP : ∀ bytes, dstFree (p.parseBlkptr bytes)) :
    ∀ (outer fuel : Nat) (q l : List blkptr_t) (ps ls : Nat)
      (index : List blkptr_t) (PS LS : Nat),
      (∀ b ∈ q, dstFree b) → (∀ b ∈ l, dstFree b) →
      ctorLoop p pool outer fuel q l ps ls = .ok index PS LS →
      ∀ b ∈ index, dstFree b := by
  intro outer
  induction outer with
  | zero => intro _ _ _ _ _ _ _ _ _ _ h; cases h
  | succ outer ih =>
    intro fuel q l ps ls index PS LS hq hl h
    unfold ctorLoop at h
    cases q with
    | nil =>
      cases h
      exact hl
    | cons bp rest =>
      dsimp only at h
      cases hexp : expandFront p pool fuel bp rest [] with
      | leaf ℓ q' buff' =>
        rw [hexp] at h
        have hinv := expandFront_dstFree_inv p pool hP fuel bp rest [] ℓ q' buff'
          (hq bp (by simp)) (fun b hb => hq b (by simp [hb])) hexp
        refine ih fuel q' (l ++ [ℓ]) _ _ index PS LS hinv.2 ?_ h
        intro b hb
        rcases List.mem_append.mp hb with hb | hb
        · exact hl b hb
        · rw [List.mem_singleton] at hb
          subst hb
          exact hinv.1
      | failed q' => rw [hexp] at h; cases h
      | crash => rw [hexp] at h; cases h
      | spin => rw [hexp] at h; cases h

/-- Unfolding of `flattenPayloads` over a head leaf. -/
theorem flattenPayloads_cons (p : Prims) (pool : Pool) (bp : blkptr_t)
    (rest : List blkptr_t) :
    flattenPayloads p pool (bp :: rest) =
      payload0 p pool bp ++ flattenPayloads p pool rest := by
  simp [flattenPayloads]

/-- The total extent equals the constructor's accumulated sector count times
512 (the `m_lsize <<= 9` of BlockReader.cpp:286). -/
theorem totalExtent_eq_sum (t : List blkptr_t) :
    totalExtent t = (t.map (fun b => b.lsize + 1)).sum * 512 := by
  induction t with
  | nil => rfl
  | cons b t ih =>
    rw [totalExtent_cons, ih]
    simp [Nat.add_mul]

/-- A successful constructor run appends its discovered leaves to the
accumulator and reports as total logical size the accumulated `lsize + 1`
sector counts times 512. -/
theorem ctorLoop_index (p : Prims) (pool : Pool) :
    ∀ (outer fuel : Nat) (q l : List blkptr_t) (ps ls : Nat)
      (index : List blkptr_t) (PS LS : Nat),
      ctorLoop p pool outer fuel q l ps ls = .ok index PS LS →
      ∃ t, index = l ++ t ∧ LS = (ls + (t.map (fun b => b.lsize + 1)).sum) * 512 := by
  intro outer
  induction outer with
  | zero => intro _ _ _ _ _ _ _ _ h; cases h
  | succ outer ih =>
    intro fuel q l ps ls index PS LS h
    unfold ctorLoop at h
    cases q with
    | nil =>
      cases h
      exact ⟨[], by simp⟩
    | cons bp rest =>
      dsimp only at h
      cases hexp : expandFront p pool fuel bp rest [] with
      | leaf ℓ q' buff' =>
        rw [hexp] at h
        obtain ⟨t, hidx, hLS⟩ := ih fuel q' (l ++ [ℓ]) _ _ index PS LS h
        refine ⟨ℓ :: t, by simpa using hidx, ?_⟩
        rw [hLS]
        simp only [List.map_cons, List.sum_cons]
        ring
      | failed q' => rw [hexp] at h; cases h
      | crash => rw [hexp] at h; cases h
      | spin => rw [hexp] at h; cases h

/-- Replay of a successful constructor run by the stream reader: over the same
queue (all of it buffer-independent, with a record parser producing only
buffer-independent children), `ReadToEnd`'s loop emits exactly the payloads of
the leaves the constructor discovers, in order, whatever scratch buffer and
accumulator it starts from — provided those leaves resolve. -/
theorem ctorLoop_stream (p : Prims) (pool : Pool)
    (hP : ∀ bytes, dstFree (p.parseBlkptr bytes)) :
    ∀ (outer fuel : Nat) (q l : List blkptr_t) (ps ls : Nat)
      (newLeaves : List blkptr_t) (PS LS : Nat) (buff dst : List Nat),
      (∀ b ∈ q, dstFree b) →
      ctorLoop p pool outer fuel q l ps ls = .ok (l ++ newLeaves) PS LS →
      (∀ b ∈ newLeaves, ∃ out, Read p pool [] b = some out) →
      ReadToEndAux p pool outer fuel q buff dst =
        .ok (dst ++ flattenPayloads p pool newLeaves) := by
  intro outer
  induction outer with
  | zero => intro fuel q l ps ls newLeaves PS LS buff dst _ h _; cases h
  | succ outer ih =>
    intro fuel q l ps ls newLeaves PS LS buff dst hq h hres
    cases q with
    | nil =>
      unfold ctorLoop at h
      have h1 : l = l ++ newLeaves := by injection h
      have hnl : newLeaves = [] := by
        have hlen := congrArg List.length h1
        rw [List.length_append] at hlen
        exact List.eq_nil_of_length_eq_zero (by omega)
      subst hnl
      unfold ReadToEndAux
      dsimp only [ReadNext]
      simp [flattenPayloads]
    | cons bp rest =>
      unfold ctorLoop at h
      dsimp only at h
      cases hexp : expandFront p pool fuel bp rest [] with
      | leaf ℓ q' buffE =>
        rw [hexp] at h
        dsimp only at h
        obtain ⟨t, hidx, _⟩ := ctorLoop_index p pool outer fuel q' (l ++ [ℓ]) _ _ _ PS LS h
        have hnew : newLeaves = ℓ :: t := by
          rw [List.append_assoc] at hidx
          simpa using List.append_cancel_left hidx
        have hinv := expandFront_dstFree_inv p pool hP fuel bp rest [] ℓ q' buffE
          (hq bp (by simp)) (fun b hb => hq b (by simp [hb])) hexp
        obtain ⟨buffX, hexpB⟩ :
            ∃ bx, expandFront p pool fuel bp rest buff = .leaf ℓ q' bx := by
          by_cases hlvl : 0 < bp.lvl
          · exact ⟨buffE, by rw [expandFront_buff p pool fuel bp rest buff []
              (hq bp (by simp)) hlvl, hexp]⟩
          · have hl0 : bp.lvl = 0 := by omega
            rw [expandFront_leaf p pool fuel bp rest [] hl0] at hexp
            cases hexp
            exact ⟨buff, expandFront_leaf p pool fuel bp rest buff hl0⟩
        have hread : Read p pool buffX ℓ = some (payload0 p pool ℓ) := by
          obtain ⟨out, hout⟩ := hres ℓ (by simp [hnew])
          rw [Read_dstFree p pool buffX [] ℓ hinv.1, hout, payload0, hout]
          rfl
        have hstep : ReadNext p pool fuel (bp :: rest) buff =
            .yield (payload0 p pool ℓ) q' := by
          unfold ReadNext
          dsimp only
          rw [hexpB]
          dsimp only
          rw [hread]
        unfold ReadToEndAux
        rw [hstep]
        dsimp only
        rw [hidx] at h
        rw [ih fuel q' (l ++ [ℓ]) (ps + ℓ.psize + 1) (ls + ℓ.lsize + 1) t PS LS
          (payload0 p pool ℓ) (dst ++ payload0 p pool ℓ) hinv.2 h ?hrest]
        case hrest =>
          intro b hb
          exact hres b (by simp [hnew, hb])
        rw [hnew, flattenPayloads_cons, List.append_assoc]
      | failed q' => rw [hexp] at h; cases h
      | crash => rw [hexp] at h; cases h
      | spin => rw [hexp] at h; cases h

/-- Splitting a `take` across an append at the first list's boundary, with the
first chunk clamped the way `BlockFile::Read` clamps its copies. -/
theorem take_chunk (l₁ l₂ : List Nat) (k : Nat) :
    l₁.take (min k l₁.length) ++ l₂.take (k - min k l₁.length) = (l₁ ++ l₂).take k := by
  rw [List.take_append_eq_append_take]
  rcases Nat.le_total k l₁.length with h | h
  · rw [Nat.min_eq_left h]
    simp [Nat.sub_eq_zero_of_le h]
  · rw [Nat.min_eq_right h, List.take_length, List.take_of_length_le h]

/-- Refilling a coherent cache at position `pos` with the leaf stored there
returns that leaf's payload and leaves the cache coherent. -/
theorem refill_coherent (p : Prims) (pool : Pool) (full : List blkptr_t)
    (cache : Cache) (pos : Nat) (bp : blkptr_t)
    (hcache : CacheOK p pool full cache) (hget : full.get? pos = some bp)
    (hfree : dstFree bp)
    (hsome : Read p pool [] bp = some (payload0 p pool bp)) :
    refill p pool cache pos bp =
        some (⟨some pos, payload0 p pool bp⟩, payload0 p pool bp) ∧
      CacheOK p pool full ⟨some pos, payload0 p pool bp⟩ := by
  refine ⟨?_, Or.inr ⟨pos, bp, rfl, hget, rfl⟩⟩
  obtain ⟨cbp, cbuff⟩ := cache
  unfold refill
  dsimp only
  split
  · rename_i hc
    rcases hcache with hnone | ⟨i, b, hcbp, hgetI, hbuff⟩
    · have hcn : cbp = none := hnone
      rw [hcn] at hc
      cases hc
    · have hcbp' : cbp = some i := hcbp
      have hbuff' : cbuff = payload0 p pool b := hbuff
      rw [hc] at hcbp'
      injection hcbp' with hip
      subst hip
      rw [hget] at hgetI
      injection hgetI with hbb
      subst hbb
      rw [hc, hbuff']
  · rw [Read_dstFree p pool cbuff [] bp hfree, hsome]

/-- Under per-leaf length agreement, the concatenated payloads cover exactly
the total logical extent. -/
theorem flattenPayloads_length (p : Prims) (pool : Pool) :
    ∀ (idx : List blkptr_t),
      (∀ b ∈ idx, (payload0 p pool b).length = (b.lsize + 1) * 512) →
      (flattenPayloads p pool idx).length = totalExtent idx := by
  intro idx
  induction idx with
  | nil => intro _; rfl
  | cons b t ih =>
    intro h
    rw [flattenPayloads_cons, List.length_append, h b (by simp), totalExtent_cons,
      ih (fun x hx => h x (by simp [hx]))]

/-- Correctness of the inner copy loop of `BlockFile::Read`: starting at the
leaf at position `pos` (the cache coherent, all remaining leaves well-behaved),
a request for `size` more bytes appends exactly the next `size` bytes of the
remaining concatenation and keeps the cache coherent. -/
theorem bfInner_extract (p : Prims) (pool : Pool) (full : List blkptr_t) :
    ∀ (idx : List blkptr_t) (pos size : Nat) (cache : Cache) (acc : List Nat),
      full.drop pos = idx →
      (∀ b ∈ idx, LeafOK p pool b) →
      CacheOK p pool full cache →
      size ≤ (flattenPayloads p pool idx).length →
      ∃ cache', bfInner p pool idx pos size cache acc =
          (some (acc ++ (flattenPayloads p pool idx).take size), cache') ∧
        CacheOK p pool full cache' := by
  intro idx
  induction idx with
  | nil =>
    intro pos size cache acc _ _ hcache hsz
    have hz : size = 0 := by simpa [flattenPayloads] using hsz
    subst hz
    rw [bfInner_zero]
    exact ⟨cache, by simp [flattenPayloads], hcache⟩
  | cons bp rest ih =>
    intro pos size cache acc hdrop hres hcache hsz
    cases size with
    | zero =>
      rw [bfInner_zero]
      exact ⟨cache, by simp, hcache⟩
    | succ size =>
      have hget : full.get? pos = some bp := by
        have h0 : (full.drop pos).get? 0 = some bp := by rw [hdrop]; rfl
        rwa [List.get?_drop, Nat.add_zero] at h0
      have hdrop' : full.drop (pos + 1) = rest := by
        have h2 : (full.drop pos).drop 1 = rest := by rw [hdrop]; rfl
        rw [List.drop_drop] at h2
        exact h2
      have hbp := hres bp (by simp)
      obtain ⟨hrf, hcok⟩ := refill_coherent p pool full cache pos bp hcache hget
        hbp.1 hbp.2.1
      unfold bfInner
      rw [hrf]
      dsimp only
      rw [flattenPayloads_cons, List.length_append] at hsz
      have hlen := hbp.2.2
      obtain ⟨cache', heq, hcok'⟩ := ih (pos + 1)
        (size + 1 - min (size + 1) ((bp.lsize + 1) * 512))
        ⟨some pos, payload0 p pool bp⟩ (acc ++ (payload0 p pool bp).take
          (min (size + 1) ((bp.lsize + 1) * 512)))
        hdrop' (fun b hb => hres b (by simp [hb])) hcok (by omega)
      refine ⟨cache', ?_, hcok'⟩
      rw [heq, flattenPayloads_cons]
      have hmin : min (size + 1) ((bp.lsize + 1) * 512) =
          min (size + 1) (payload0 p pool bp).length := by
        rw [hlen]
      rw [hmin, List.append_assoc, take_chunk]

/-- Correctness of the leaf-index walk of `BlockFile::Read`: for a positive
in-range request over well-behaved leaves with a coherent cache, the walk
returns exactly the requested slice of the remaining concatenation. -/
theorem bfWalk_extract (p : Prims) (pool : Pool) (full : List blkptr_t) :
    ∀ (idx : List blkptr_t) (pos lstart size offset : Nat) (cache : Cache),
      full.drop pos = idx →
      (∀ b ∈ idx, LeafOK p pool b) →
      CacheOK p pool full cache →
      lstart ≤ offset →
      0 < size →
      offset + size ≤ lstart + totalExtent idx →
      ∃ cache', bfWalk p pool idx pos lstart size offset cache =
        (some (extract (flattenPayloads p pool idx) (offset - lstart) size),
          cache') := by
  intro idx
  induction idx with
  | nil =>
    intro pos lstart size offset cache _ _ _ hlo hpos hrange
    simp [totalExtent] at hrange
    omega
  | cons bp rest ih =>
    intro pos lstart size offset cache hdrop hres hcache hlo hpos hrange
    have hget : full.get? pos = some bp := by
      have h0 : (full.drop pos).get? 0 = some bp := by rw [hdrop]; rfl
      rwa [List.get?_drop, Nat.add_zero] at h0
    have hdrop' : full.drop (pos + 1) = rest := by
      have h2 : (full.drop pos).drop 1 = rest := by rw [hdrop]; rfl
      rw [List.drop_drop] at h2
      exact h2
    have hbp := hres bp (by simp)
    have hlen := hbp.2.2
    rw [totalExtent_cons] at hrange
    unfold bfWalk
    dsimp only
    by_cases hoff : offset < lstart + (bp.lsize + 1) * 512
    · rw [if_pos hoff]
      obtain ⟨hrf, hcok⟩ := refill_coherent p pool full cache pos bp hcache hget
        hbp.1 hbp.2.1
      rw [hrf]
      dsimp only
      obtain ⟨cache', heq, _⟩ := bfInner_extract p pool full rest (pos + 1)
        (size - min size (lstart + (bp.lsize + 1) * 512 - offset))
        ⟨some pos, payload0 p pool bp⟩
        (((payload0 p pool bp).drop (offset - lstart)).take
          (min size (lstart + (bp.lsize + 1) * 512 - offset)))
        hdrop' (fun b hb => hres b (by simp [hb])) hcok
        (by
          rw [flattenPayloads_length p pool rest
            (fun b hb => (hres b (by simp [hb])).2.2)]
          omega)
      refine ⟨cache', ?_⟩
      rw [heq]
      have hmin : min size (lstart + (bp.lsize + 1) * 512 - offset) =
          min size ((payload0 p pool bp).drop (offset - lstart)).length := by
        rw [List.length_drop, hlen]
        omega
      rw [hmin, take_chunk, flattenPayloads_cons]
      unfold extract
      rw [List.drop_append_eq_append_drop]
      have hr0 : offset - lstart - (payload0 p pool bp).length = 0 := by
        rw [hlen]
        omega
      rw [hr0, List.drop_zero]
    · rw [if_neg hoff]
      obtain ⟨cache', heq⟩ := ih (pos + 1) (lstart + (bp.lsize + 1) * 512) size
        offset cache hdrop' (fun b hb => hres b (by simp [hb])) hcache (by omega)
        hpos (by omega)
      refine ⟨cache', ?_⟩
      rw [heq]
      rw [flattenPayloads_cons]
      unfold extract
      have hnil : (payload0 p pool bp).drop (offset - lstart) = [] :=
        List.drop_eq_nil_of_le (by rw [hlen]; omega)
      rw [List.drop_append_eq_append_drop, hnil, List.nil_append]
      rw [show offset - (lstart + (bp.lsize + 1) * 512) =
        offset - lstart - (payload0 p pool bp).length from by rw [hlen]; omega]

set_option maxRecDepth 8000 in
/-- C5 counterexample.  The claim says that whenever all resolutions succeed
and `offset + size` is within the total logical size, `BlockFile::Read`
returns exactly bytes `[offset, offset+size)` of the `ReadToEnd`
concatenation.  Over the descriptor set `[leafA, leafBp]` every resolution
succeeds (`OFF` never fails) and the construction succeeds, but `leafA`
declares a 1024-byte logical extent while its `OFF` payload is its 512-byte
physical block: the concatenation has only 1024 bytes, the file claims 1536,
and the in-range request `offset = 1024, size = 512` returns `leafBp`'s 512
bytes — while bytes `[1024, 1536)` of the concatenation are empty. -/
theorem c5_counterexample :
    ctorLoop prims0 pool1 3 1 [leafA, leafBp] [] 0 0 = .ok [leafA, leafBp] 1024 1536 ∧
      ReadToEnd prims0 pool1 3 1 [leafA, leafBp] =
        .ok (vdev0.Read 512 0 ++ vdev0.Read 512 0) ∧
      1024 + 512 ≤ 1536 ∧ (0 : Nat) < 512 ∧
      (BlockFile.Read prims0 pool1 [leafA, leafBp] 1536 ⟨none, []⟩ 512 1024).1 =
        some (vdev0.Read 512 0) ∧
      extract (vdev0.Read 512 0 ++ vdev0.Read 512 0) 1024 512 = [] ∧
      vdev0.Read 512 0 ≠ [] := by
  refine ⟨rfl, rfl, by omega, by omega, rfl, rfl, ?_⟩
  simp [VirtualDevice.Read]

/-- C5 as amended: for a descriptor set whose root queue and parsed child
records avoid the buffer-dependent codecs (`GZIP_1..9`/`ZLE`), whose
construction succeeds, and whose leaves all resolve with payloads of exactly
their declared logical extent, every positive in-range request
(`0 < size`, `offset + size ≤ total`) on the constructed file — with any
coherent cache state — returns exactly bytes `[offset, offset+size)` of the
concatenation that `ReadToEnd` over the same descriptor set produces. -/
theorem c5_read_matches_stream (p : Prims) (pool : Pool)
    (outer fuel : Nat) (q index : List blkptr_t) (PS LS : Nat)
    (cache : Cache) (size offset : Nat)
    (hP : ∀ bytes, dstFree (p.parseBlkptr bytes))
    (hq : ∀ b ∈ q, dstFree b)
    (hc : ctorLoop p pool outer fuel q [] 0 0 = .ok index PS LS)
    (hres : ∀ b ∈ index, ∃ out, Read p pool [] b = some out ∧
      out.length = (b.lsize + 1) * 512)
    (hcache : CacheOK p pool index cache)
    (hsz : 0 < size)
    (hrange : offset + size ≤ totalExtent index)
    (h64 : totalExtent index < 2 ^ 64) :
    ReadToEnd p pool outer fuel q = .ok (flattenPayloads p pool index) ∧
      (BlockFile.Read p pool index LS cache size offset).1 =
        some (extract (flattenPayloads p pool index) offset size) := by
  have hfree : ∀ b ∈ index, dstFree b :=
    ctorLoop_dstFree_inv p pool hP outer fuel q [] 0 0 index PS LS hq (by simp) hc
  have hleaf : ∀ b ∈ index, LeafOK p pool b := by
    intro b hb
    obtain ⟨out, hout, hlen⟩ := hres b hb
    have hp0 : payload0 p pool b = out := by rw [payload0, hout]; rfl
    refine ⟨hfree b hb, ?_, ?_⟩
    · rw [hout, hp0]
    · rw [hp0]
      exact hlen
  have hresE : ∀ b ∈ index, ∃ out, Read p pool [] b = some out := by
    intro b hb
    obtain ⟨out, hout, _⟩ := hres b hb
    exact ⟨out, hout⟩
  have hLS : LS = totalExtent index := by
    obtain ⟨t, hidx, hLSeq⟩ := ctorLoop_index p pool outer fuel q [] 0 0 index PS LS hc
    rw [List.nil_append] at hidx
    subst hidx
    rw [hLSeq, totalExtent_eq_sum, Nat.zero_add]
  constructor
  · unfold ReadToEnd
    have hstream := ctorLoop_stream p pool hP outer fuel q [] 0 0 index PS LS [] []
      hq (by simpa using hc) hresE
    simpa using hstream
  · unfold BlockFile.Read
    rw [Nat.mod_eq_of_lt (by omega), if_neg (by omega)]
    obtain ⟨cache', heq⟩ := bfWalk_extract p pool index index 0 0 size offset cache
      rfl hleaf hcache (Nat.zero_le _) hsz (by simpa using hrange)
    rw [heq]
    simp [Nat.sub_zero]

set_option maxRecDepth 8000 in
/-- Witness for C5's amended theorem at a concrete input: a flat two-leaf
descriptor set with matching sizes, read across the leaf boundary
(`offset = 256`, `size = 512`). -/
theorem c5_witness :
    ReadToEnd prims0 pool1 3 1 [leafBp, leafBp] =
        .ok (flattenPayloads prims0 pool1 [leafBp, leafBp]) ∧
      (BlockFile.Read prims0 pool1 [leafBp, leafBp] 1024 ⟨none, []⟩ 512 256).1 =
        some (extract (flattenPayloads prims0 pool1 [leafBp, leafBp]) 256 512) :=
  c5_read_matches_stream prims0 pool1 3 1 [leafBp, leafBp] [leafBp, leafBp]
    1024 1024 ⟨none, []⟩ 512 256
    (fun _ => (by decide : dstFree default))
    (by decide)
    rfl
    (by
      intro b hb
      rw [List.mem_cons, List.mem_singleton] at hb
      rcases hb with hb | hb <;> subst hb <;>
        exact ⟨vdev0.Read 512 0, rfl, by simp [VirtualDevice.Read, leafBp]⟩)
    (Or.inl rfl)
    (by decide)
    (by decide)
    (by decide)

end ZFS
